import Mathlib

/-
Shallow embedding of the snake-game core of this repository (the game
logic of snake.go).  The grid is 25 by 20; positions are integer pairs;
the game state bundles the global variables snake, food, direction,
gameOver and score.  Randomness (rand.Intn in placeFood) is modelled by
an explicit stream of candidate positions consumed left to right, so
the rejection-sampling loop of placeFood becomes a function that returns
the first candidate off the stream that does not overlap the body, or
none when the stream runs out (the loop still spinning after that many
samples).  Any step of the program that would still be inside that loop
is modelled as the whole step returning none.
-/

namespace SnakeGame

/-- Grid width, the constant width = 25 of the source. -/
def width : Int := 25

/-- Grid height, the constant height = 20 of the source. -/
def height : Int := 20

/-- The Position struct of the source: an integer coordinate pair. -/
structure Position where
  x : Int
  y : Int
deriving DecidableEq, Repr

/-- The four decoded direction events the input goroutine forwards
(the strings UP, DOWN, LEFT, RIGHT of the source). -/
inductive Dir where
  | up
  | down
  | left
  | right
deriving DecidableEq, Repr

/-- The opposite-pair relation on directions (Up-Down, Left-Right). -/
def opposite : Dir → Dir
  | Dir.up => Dir.down
  | Dir.down => Dir.up
  | Dir.left => Dir.right
  | Dir.right => Dir.left

/-- The global mutable state of the source gathered into one record:
snake, food, direction, gameOver, score. -/
structure GameState where
  snake : List Position
  food : Position
  direction : Dir
  gameOver : Bool
  score : Nat
deriving DecidableEq, Repr

/-- The spec's Spatial Model containment query: 0 <= x < W and 0 <= y < H
(the source inlines these comparisons in checkCollisions and guarantees
them for rand.Intn samples in placeFood). -/
def inBounds (p : Position) : Bool :=
  decide (0 ≤ p.x ∧ p.x < width ∧ 0 ≤ p.y ∧ p.y < height)

/-- The coordinatewise membership test the source writes as
`p.X == segment.X && p.Y == segment.Y` inside a loop over the body. -/
def overlaps (p : Position) (body : List Position) : Bool :=
  body.any (fun seg => decide (p.x = seg.x ∧ p.y = seg.y))

/-- handleInput of the source: each arm rejects the request when the
current direction is its exact opposite and otherwise overwrites the
direction variable immediately. -/
def handleInput (key : Dir) (s : GameState) : GameState :=
  match key with
  | Dir.up => if s.direction ≠ Dir.down then { s with direction := Dir.up } else s
  | Dir.down => if s.direction ≠ Dir.up then { s with direction := Dir.down } else s
  | Dir.left => if s.direction ≠ Dir.right then { s with direction := Dir.left } else s
  | Dir.right => if s.direction ≠ Dir.left then { s with direction := Dir.right } else s

/-- The switch in move that offsets the head one cell along the current
direction (Up: y-1, Down: y+1, Left: x-1, Right: x+1). -/
def nextHead (d : Dir) (head : Position) : Position :=
  match d with
  | Dir.up => { head with y := head.y - 1 }
  | Dir.down => { head with y := head.y + 1 }
  | Dir.left => { head with x := head.x - 1 }
  | Dir.right => { head with x := head.x + 1 }

/-- placeFood of the source: keep drawing candidate positions until one
does not overlap the body.  The draws of rand.Intn(width), rand.Intn(height)
are the stream; none means the stream was exhausted with the loop still
running. -/
def placeFood (stream : List Position) (body : List Position) : Option Position :=
  match stream with
  | [] => none
  | c :: rest => if overlaps c body then placeFood rest body else some c

/-- move of the source: read the head (indexing snake[0], so an empty body
is a panic, modelled none), offset it along the direction, prepend it; on
eating (new head equals food) add 10 to the score and re-place the food
against the already grown body, otherwise slice off the last element. -/
def move (stream : List Position) (s : GameState) : Option GameState :=
  match s.snake with
  | [] => none
  | head :: _ =>
    let newHead := nextHead s.direction head
    let grown := newHead :: s.snake
    if newHead = s.food then
      match placeFood stream grown with
      | none => none
      | some f => some { s with snake := grown, food := f, score := s.score + 10 }
    else
      some { s with snake := grown.dropLast }

/-- checkCollisions of the source: set gameOver when the head is outside
the grid or equals any later segment.  It reads snake[0], so an empty body
would panic; the source never calls it with one, and the model returns the
state unchanged there. -/
def checkCollisions (s : GameState) : GameState :=
  match s.snake with
  | [] => s
  | head :: rest =>
    if (decide (head.x < 0) || decide (head.x ≥ width) ||
        decide (head.y < 0) || decide (head.y ≥ height)) || overlaps head rest then
      { s with gameOver := true }
    else s

/-- The ticker arm of gameLoop: when gameOver nothing runs (no move, no
draw); otherwise move, checkCollisions, draw, in that order.  The boolean
records whether draw was called on this tick. -/
def tick (stream : List Position) (s : GameState) : Option (GameState × Bool) :=
  if s.gameOver then some (s, false)
  else
    match move stream s with
    | none => none
    | some s1 => some (checkCollisions s1, true)

/-- One event the select of gameLoop can wake on: a ticker tick (carrying
the random draws its placeFood call may consume) or a decoded key. -/
inductive Event where
  | timer (stream : List Position)
  | key (d : Dir)

/-- Dispatch of one select iteration of gameLoop (quit simply exits and is
not a state transition). -/
def stepEvent (e : Event) (s : GameState) : Option (GameState × Bool) :=
  match e with
  | Event.timer stream => tick stream s
  | Event.key k => some (handleInput k s, false)

/-- gameLoop run over a finite list of events. -/
def run (evs : List Event) (s : GameState) : Option GameState :=
  match evs with
  | [] => some s
  | e :: rest =>
    match stepEvent e s with
    | none => none
    | some (s1, _) => run rest s1

/-- The initial body of initializeGame: the single cell (width/2 - 2, height/2). -/
def initBody : List Position := [{ x := 10, y := 10 }]

/-- The state initializeGame leaves behind once its placeFood call has
returned f: one segment, direction RIGHT, gameOver false, score 0. -/
def initialState (f : Position) : GameState :=
  { snake := initBody, food := f, direction := Dir.right, gameOver := false, score := 0 }

/-- The states the program can be at rest in between select iterations:
the initial state (for any way its placeFood call came back), closed under
ticker ticks and key events. -/
inductive Reachable : GameState → Prop
  | init (stream : List Position) (f : Position)
      (hf : placeFood stream initBody = some f) : Reachable (initialState f)
  | tickStep (s s1 : GameState) (r : Bool) (stream : List Position)
      (hs : Reachable s) (h : tick stream s = some (s1, r)) : Reachable s1
  | inputStep (s : GameState) (k : Dir) (hs : Reachable s) : Reachable (handleInput k s)

/-- The direction update of a single handleInput call, as a function on
directions alone: keep the current direction when the request is its exact
opposite, otherwise take the request. -/
def gateStep (d : Dir) (r : Dir) : Dir :=
  if r = opposite d then d else r

/-- Modelled from the spec: the Direction Gate of 4.4. "a request is valid
exactly when it is not the exact opposite of CurrentDirection - the
direction committed at the preceding tick", and among the valid requests
of one inter-tick interval "only the latest valid request is retained
(last-write-wins)".  d0 is the direction committed at the preceding tick,
reqs the requests of the interval in arrival order. -/
def specRetained (d0 : Dir) (reqs : List Dir) : Dir :=
  ((reqs.filter (fun r => decide (r ≠ opposite d0))).getLast?).getD d0

/-- Every cell of the 25 by 20 grid, listed row by row: the body of a
snake that has filled the whole board. -/
def allCells : List Position :=
  (List.range 500).map (fun i => { x := (i % 25 : Nat), y := (i / 25 : Nat) })

theorem overlaps_iff_mem (p : Position) (l : List Position) :
    overlaps p l = true ↔ p ∈ l := by
  unfold overlaps
  rw [List.any_eq_true]
  constructor
  · rintro ⟨seg, hseg, hdec⟩
    obtain ⟨hx, hy⟩ := of_decide_eq_true hdec
    cases p
    cases seg
    simp_all
  · intro hp
    exact ⟨p, hp, by simp⟩

theorem overlaps_eq_false_iff (p : Position) (l : List Position) :
    overlaps p l = false ↔ p ∉ l := by
  rw [← overlaps_iff_mem p l]
  cases overlaps p l <;> simp

theorem mem_allCells (p : Position) (hp : inBounds p = true) : p ∈ allCells := by
  obtain ⟨h1, h2, h3, h4⟩ := of_decide_eq_true hp
  have h2' : p.x < 25 := by simpa [width] using h2
  have h4' : p.y < 20 := by simpa [height] using h4
  simp only [allCells, List.mem_map, List.mem_range]
  refine ⟨p.y.toNat * 25 + p.x.toNat, by omega, ?_⟩
  have hx : (p.y.toNat * 25 + p.x.toNat) % 25 = p.x.toNat := by omega
  have hy : (p.y.toNat * 25 + p.x.toNat) / 25 = p.y.toNat := by omega
  rw [hx, hy]
  cases p with
  | mk px py =>
    simp only [Position.mk.injEq]
    constructor
    · exact Int.toNat_of_nonneg h1
    · exact Int.toNat_of_nonneg h3

theorem placeFood_not_overlap (stream body : List Position) (f : Position)
    (h : placeFood stream body = some f) : overlaps f body = false := by
  induction stream with
  | nil => simp [placeFood] at h
  | cons c rest ih =>
    rw [placeFood] at h
    by_cases hc : overlaps c body = true
    · rw [if_pos hc] at h
      exact ih h
    · rw [if_neg hc] at h
      cases h
      exact Bool.not_eq_true _ ▸ (Bool.eq_false_iff.mpr hc)

theorem handleInput_eq (k : Dir) (s : GameState) :
    handleInput k s = { s with direction := gateStep s.direction k } := by
  cases s with
  | mk sn f d go sc => cases k <;> cases d <;> simp [handleInput, gateStep, opposite]

/-- Claim C1: the source's placeFood has no escape for a full board: when
the body covers every in-bounds cell, the rejection-sampling loop rejects
every sample rand.Intn can produce, so no number of draws makes it return;
in particular it never detects the condition and never sets gameOver, in
contradiction with the spec's mandated explicit board-full transition to
Phase = Over. -/
theorem placeFood_board_full (stream body : List Position)
    (hbody : ∀ p, inBounds p = true → overlaps p body = true)
    (hstream : ∀ p ∈ stream, inBounds p = true) :
    placeFood stream body = none := by
  induction stream with
  | nil => rfl
  | cons c rest ih =>
    have hc : overlaps c body = true := hbody c (hstream c (by simp))
    rw [placeFood, if_pos hc]
    exact ih (fun p hp => hstream p (by simp [hp]))

/-- Witness for C1: with the board-filling body, the draw (3,4) - in
bounds, as every rand.Intn draw is - is rejected and the loop is still
running. -/
theorem placeFood_board_full_witness :
    placeFood [{ x := 3, y := 4 }] allCells = none := by
  apply placeFood_board_full
  · intro p hp
    exact (overlaps_iff_mem p allCells).mpr (mem_allCells p hp)
  · intro p hp
    simp only [List.mem_singleton] at hp
    rw [hp]
    decide

/-- Claim C2, counterexample: from CurrentDirection = RIGHT at the
preceding tick, the inter-tick request sequence [UP, LEFT] refutes the
claim.  Under the claim LEFT is invalid (exact opposite of the committed
direction RIGHT), so the latest valid request UP should be the direction
at the next tick; the source instead validates LEFT against the already
updated direction UP and accepts it, ending on LEFT. -/
theorem handleInput_between_ticks_cex :
    (handleInput Dir.left (handleInput Dir.up
      { snake := [{ x := 10, y := 10 }], food := { x := 0, y := 0 },
        direction := Dir.right, gameOver := false, score := 0 })).direction = Dir.left ∧
    specRetained Dir.right [Dir.up, Dir.left] = Dir.up ∧
    Dir.left ≠ Dir.up := by
  decide

/-- Claim C2, amended: requests between two ticks are folded into the
single direction variable immediately, left to right; each request is
rejected exactly when it is the exact opposite of the direction as already
updated by the earlier requests of the same interval (not of the direction
committed at the preceding tick), and no field other than the direction
changes, so no movement happens mid-tick. -/
theorem handleInput_foldl (s : GameState) (reqs : List Dir) :
    reqs.foldl (fun t r => handleInput r t) s =
      { s with direction := reqs.foldl gateStep s.direction } := by
  induction reqs generalizing s with
  | nil => rfl
  | cons r rest ih =>
    simp only [List.foldl_cons]
    rw [handleInput_eq, ih]

/-- Claim C7: a single direction request is silently dropped exactly when
it is the exact opposite of the current direction, and otherwise only the
direction field is overwritten with the request. -/
theorem handleInput_reversal (s : GameState) (d : Dir) :
    (d = opposite s.direction → handleInput d s = s) ∧
    (d ≠ opposite s.direction → handleInput d s = { s with direction := d }) := by
  rw [handleInput_eq]
  constructor
  · intro h
    simp [gateStep, h]
  · intro h
    simp [gateStep, h]

/-- Witness for C7 at a concrete state heading RIGHT: LEFT is rejected,
UP is recorded. -/
theorem handleInput_reversal_witness :
    handleInput Dir.left
      { snake := [{ x := 10, y := 10 }], food := { x := 0, y := 0 },
        direction := Dir.right, gameOver := false, score := 0 } =
      { snake := [{ x := 10, y := 10 }], food := { x := 0, y := 0 },
        direction := Dir.right, gameOver := false, score := 0 } ∧
    handleInput Dir.up
      { snake := [{ x := 10, y := 10 }], food := { x := 0, y := 0 },
        direction := Dir.right, gameOver := false, score := 0 } =
      { snake := [{ x := 10, y := 10 }], food := { x := 0, y := 0 },
        direction := Dir.up, gameOver := false, score := 0 } :=
  ⟨(handleInput_reversal _ Dir.left).1 (by decide),
   (handleInput_reversal _ Dir.up).2 (by decide)⟩

theorem move_eat (stream : List Position) (s : GameState) (h0 : Position)
    (t0 : List Position) (f : Position) (hs : s.snake = h0 :: t0)
    (he : nextHead s.direction h0 = s.food)
    (hpf : placeFood stream (s.food :: s.snake) = some f) :
    move stream s =
      some { s with snake := s.food :: s.snake, food := f, score := s.score + 10 } := by
  rw [hs] at hpf
  simp only [move, hs]
  rw [if_pos he, he, hpf]

theorem move_noeat (stream : List Position) (s : GameState) (h0 : Position)
    (t0 : List Position) (hs : s.snake = h0 :: t0)
    (hne : nextHead s.direction h0 ≠ s.food) :
    move stream s =
      some { s with snake := (nextHead s.direction h0 :: s.snake).dropLast } := by
  simp only [move, hs]
  rw [if_neg hne]

theorem move_some (stream : List Position) (s s1 : GameState)
    (h : move stream s = some s1) :
    ∃ h0 t0, s.snake = h0 :: t0 ∧
      ((nextHead s.direction h0 = s.food ∧
        ∃ f, placeFood stream (nextHead s.direction h0 :: s.snake) = some f ∧
          s1 = { s with snake := nextHead s.direction h0 :: s.snake, food := f,
                        score := s.score + 10 }) ∨
       (nextHead s.direction h0 ≠ s.food ∧
        s1 = { s with snake := (nextHead s.direction h0 :: s.snake).dropLast })) := by
  cases hs : s.snake with
  | nil => simp [move, hs] at h
  | cons h0 t0 =>
    refine ⟨h0, t0, rfl, ?_⟩
    simp only [move, hs] at h
    by_cases he : nextHead s.direction h0 = s.food
    · left
      refine ⟨he, ?_⟩
      rw [if_pos he] at h
      cases hpf : placeFood stream (nextHead s.direction h0 :: (h0 :: t0)) with
      | none =>
        simp only [hpf] at h
        simp at h
      | some f =>
        simp only [hpf, Option.some.injEq] at h
        exact ⟨f, rfl, h.symm⟩
    · right
      refine ⟨he, ?_⟩
      rw [if_neg he] at h
      simp only [Option.some.injEq] at h
      exact h.symm

theorem checkCollisions_cases (s : GameState) :
    checkCollisions s = s ∨ checkCollisions s = { s with gameOver := true } := by
  rw [checkCollisions]
  cases s.snake with
  | nil => exact Or.inl rfl
  | cons a l =>
    dsimp only
    split
    · exact Or.inr rfl
    · exact Or.inl rfl

theorem checkCollisions_fields (s : GameState) :
    (checkCollisions s).snake = s.snake ∧ (checkCollisions s).food = s.food ∧
      (checkCollisions s).score = s.score ∧
      (checkCollisions s).direction = s.direction := by
  rcases checkCollisions_cases s with h | h <;> rw [h] <;> exact ⟨rfl, rfl, rfl, rfl⟩

theorem checkCollisions_active (s : GameState)
    (h : (checkCollisions s).gameOver = false) :
    checkCollisions s = s ∧ s.gameOver = false ∧
      ∀ h0 t0, s.snake = h0 :: t0 →
        (0 ≤ h0.x ∧ h0.x < width ∧ 0 ≤ h0.y ∧ h0.y < height) ∧
          overlaps h0 t0 = false := by
  have hcs : checkCollisions s = s := by
    rcases checkCollisions_cases s with hc | hc
    · exact hc
    · rw [hc] at h
      simp at h
  have hgo : s.gameOver = false := by rw [hcs] at h; exact h
  refine ⟨hcs, hgo, ?_⟩
  intro h0 t0 hst
  have hred : checkCollisions s =
      (if (decide (h0.x < 0) || decide (h0.x ≥ width) || decide (h0.y < 0) ||
            decide (h0.y ≥ height) || overlaps h0 t0) = true then
        { s with gameOver := true } else s) := by
    simp only [checkCollisions, hst]
  by_cases hcond : (decide (h0.x < 0) || decide (h0.x ≥ width) || decide (h0.y < 0) ||
      decide (h0.y ≥ height) || overlaps h0 t0) = true
  · rw [hred, if_pos hcond] at h
    simp at h
  · simp only [width, height, Bool.or_eq_true, decide_eq_true_eq, not_or,
      Bool.not_eq_true] at hcond
    obtain ⟨⟨⟨⟨hx0, hxw⟩, hy0⟩, hyh⟩, hov⟩ := hcond
    simp only [width, height]
    exact ⟨⟨by omega, by omega, by omega, by omega⟩, hov⟩

theorem tick_over (stream : List Position) (s : GameState) (hgo : s.gameOver = true) :
    tick stream s = some (s, false) := by
  simp [tick, hgo]

theorem tick_active (stream : List Position) (s s1 : GameState)
    (hgo : s.gameOver = false) (hm : move stream s = some s1) :
    tick stream s = some (checkCollisions s1, true) := by
  simp [tick, hgo, hm]

/-- Claim C3, counterexample: on a tick in a Phase = Over state the ticker
arm of gameLoop is guarded by `if !gameOver` and draws nothing: no render
is requested, where the claim requires one each tick. -/
theorem tick_over_no_render_cex :
    tick [] { snake := [{ x := 5, y := 5 }], food := { x := 0, y := 0 },
              direction := Dir.right, gameOver := true, score := 30 } =
      some ({ snake := [{ x := 5, y := 5 }], food := { x := 0, y := 0 },
              direction := Dir.right, gameOver := true, score := 30 }, false) ∧
    (false : Bool) ≠ true := by
  decide

/-- Claim C3, amended: on a timer tick with Phase = Active the loop runs
move then checkCollisions and renders the result; with Phase = Over the
tick does nothing at all - no state mutation and also no render (the
game-over frame persists only because it was drawn on the tick that set
Phase = Over and nothing redraws over it). -/
theorem tick_render_discipline (stream : List Position) (s : GameState) :
    (s.gameOver = true → tick stream s = some (s, false)) ∧
    (s.gameOver = false → ∀ s1, move stream s = some s1 →
      tick stream s = some (checkCollisions s1, true)) :=
  ⟨tick_over stream s, fun hgo s1 hm => tick_active stream s s1 hgo hm⟩

/-- Witness for C3 (amended), both arms at concrete states: an Over state
ticks to itself unrendered; the Scenario-1 state advances and renders. -/
theorem tick_render_discipline_witness :
    tick [] { snake := [{ x := 5, y := 5 }], food := { x := 0, y := 0 },
              direction := Dir.right, gameOver := true, score := 30 } =
      some ({ snake := [{ x := 5, y := 5 }], food := { x := 0, y := 0 },
              direction := Dir.right, gameOver := true, score := 30 }, false) ∧
    tick [] { snake := [{ x := 10, y := 10 }], food := { x := 0, y := 0 },
              direction := Dir.right, gameOver := false, score := 0 } =
      some ({ snake := [{ x := 11, y := 10 }], food := { x := 0, y := 0 },
              direction := Dir.right, gameOver := false, score := 0 }, true) :=
  ⟨(tick_render_discipline [] _).1 rfl,
   Eq.trans
     ((tick_render_discipline []
        { snake := [{ x := 10, y := 10 }], food := { x := 0, y := 0 },
          direction := Dir.right, gameOver := false, score := 0 }).2 rfl
        { snake := [{ x := 11, y := 10 }], food := { x := 0, y := 0 },
          direction := Dir.right, gameOver := false, score := 0 } (by decide))
     (by decide)⟩

/-- Claim C4: a tick whose new head is the consumable adds exactly 10 to
the score, keeps every body element while prepending the new head (length
grows by one), and re-places the consumable off the grown body. -/
theorem move_grows_on_food (stream : List Position) (s : GameState) (h0 : Position)
    (t0 : List Position) (f : Position) (hs : s.snake = h0 :: t0)
    (he : nextHead s.direction h0 = s.food)
    (hpf : placeFood stream (s.food :: s.snake) = some f) :
    move stream s =
      some { s with snake := s.food :: s.snake, food := f, score := s.score + 10 } ∧
    (s.food :: s.snake).length = s.snake.length + 1 ∧
    overlaps f (s.food :: s.snake) = false :=
  ⟨move_eat stream s h0 t0 f hs he hpf, by simp,
   placeFood_not_overlap stream (s.food :: s.snake) f hpf⟩

/-- Witness for C4, Scenario 2: body [(5,5),(4,5),(3,5)] heading RIGHT onto
the consumable at (6,5) ends, with draw (0,0) pending, as the length-4 body
[(6,5),(5,5),(4,5),(3,5)] headed by (6,5), score 10, food off the body. -/
theorem move_grows_on_food_witness :
    move [{ x := 0, y := 0 }]
      { snake := [{ x := 5, y := 5 }, { x := 4, y := 5 }, { x := 3, y := 5 }],
        food := { x := 6, y := 5 }, direction := Dir.right,
        gameOver := false, score := 0 } =
      some { snake := [{ x := 6, y := 5 }, { x := 5, y := 5 }, { x := 4, y := 5 },
                       { x := 3, y := 5 }],
             food := { x := 0, y := 0 }, direction := Dir.right,
             gameOver := false, score := 10 } ∧
    ([{ x := 6, y := 5 }, { x := 5, y := 5 }, { x := 4, y := 5 },
      { x := 3, y := 5 }] : List Position).length = 4 := by
  have h := move_grows_on_food [{ x := 0, y := 0 }]
    { snake := [{ x := 5, y := 5 }, { x := 4, y := 5 }, { x := 3, y := 5 }],
      food := { x := 6, y := 5 }, direction := Dir.right,
      gameOver := false, score := 0 }
    { x := 5, y := 5 } [{ x := 4, y := 5 }, { x := 3, y := 5 }] { x := 0, y := 0 }
    rfl (by decide) (by decide)
  exact ⟨h.1, rfl⟩

theorem checkCollisions_hit (s : GameState) (h0 : Position) (t0 : List Position)
    (hs : s.snake = h0 :: t0)
    (hcond : (decide (h0.x < 0) || decide (h0.x ≥ width) || decide (h0.y < 0) ||
        decide (h0.y ≥ height) || overlaps h0 t0) = true) :
    checkCollisions s = { s with gameOver := true } := by
  simp only [checkCollisions, hs]
  rw [if_pos hcond]

theorem dropLast_cons_cons (a : Position) (h0 : Position) (t0 : List Position) :
    (a :: h0 :: t0).dropLast = a :: (h0 :: t0).dropLast := by
  rfl

/-- Claim C5: a tick that drives the head one cell past a wall (x = -1,
x = W, y = -1 or y = H) sets gameOver on that same tick, and the body has
already been moved when checkCollisions runs, so the terminal body starts
with the out-of-bounds head. -/
theorem tick_wall_collision (stream : List Position) (s : GameState) (h0 : Position)
    (t0 : List Position) (s1 : GameState) (r : Bool)
    (hs : s.snake = h0 :: t0) (hgo : s.gameOver = false)
    (hoob : (nextHead s.direction h0).x = -1 ∨ (nextHead s.direction h0).x = width ∨
            (nextHead s.direction h0).y = -1 ∨ (nextHead s.direction h0).y = height)
    (ht : tick stream s = some (s1, r)) :
    s1.gameOver = true ∧ ∃ rest, s1.snake = nextHead s.direction h0 :: rest := by
  rw [tick, if_neg (by rw [hgo]; exact Bool.false_ne_true)] at ht
  cases hm : move stream s with
  | none => rw [hm] at ht; cases ht
  | some s2 =>
    rw [hm] at ht
    simp only [Option.some.injEq, Prod.mk.injEq] at ht
    obtain ⟨hs1, _⟩ := ht
    obtain ⟨h0', t0', hs', hcase⟩ := move_some stream s s2 hm
    rw [hs] at hs'
    cases hs'
    have hsnake2 : ∃ b, s2.snake = nextHead s.direction h0 :: b := by
      rcases hcase with ⟨_, f, _, hrec⟩ | ⟨_, hrec⟩
      · exact ⟨s.snake, by rw [hrec]⟩
      · refine ⟨(h0 :: t0).dropLast, ?_⟩
        rw [hrec, hs]
        rfl
    obtain ⟨b, hb⟩ := hsnake2
    have hcond : (decide ((nextHead s.direction h0).x < 0) ||
        decide ((nextHead s.direction h0).x ≥ width) ||
        decide ((nextHead s.direction h0).y < 0) ||
        decide ((nextHead s.direction h0).y ≥ height) ||
        overlaps (nextHead s.direction h0) b) = true := by
      simp only [width, height] at hoob
      simp only [Bool.or_eq_true, decide_eq_true_eq, width, height]
      rcases hoob with hx | hx | hy | hy
      · exact Or.inl (Or.inl (Or.inl (Or.inl (by omega))))
      · exact Or.inl (Or.inl (Or.inl (Or.inr (by omega))))
      · exact Or.inl (Or.inl (Or.inr (by omega)))
      · exact Or.inl (Or.inr (by omega))
    have hcc := checkCollisions_hit s2 (nextHead s.direction h0) b hb hcond
    rw [← hs1, hcc]
    exact ⟨rfl, b, hb⟩

/-- Witness for C5, Scenario 3: body [(0,5),(1,5)] heading LEFT ticks to
head (-1,5): gameOver set, body frozen at [(-1,5),(0,5)]. -/
theorem tick_wall_collision_witness :
    (tick [] { snake := [{ x := 0, y := 5 }, { x := 1, y := 5 }],
               food := { x := 3, y := 3 }, direction := Dir.left,
               gameOver := false, score := 0 } =
      some ({ snake := [{ x := -1, y := 5 }, { x := 0, y := 5 }],
              food := { x := 3, y := 3 }, direction := Dir.left,
              gameOver := true, score := 0 }, true)) ∧
    ({ snake := [{ x := -1, y := 5 }, { x := 0, y := 5 }],
       food := { x := 3, y := 3 }, direction := Dir.left,
       gameOver := true, score := 0 } : GameState).gameOver = true ∧
    ∃ rest, ({ snake := [{ x := -1, y := 5 }, { x := 0, y := 5 }],
                 food := { x := 3, y := 3 }, direction := Dir.left,
                 gameOver := true, score := 0 } : GameState).snake =
               nextHead Dir.left { x := 0, y := 5 } :: rest := by
  refine ⟨by decide, ?_⟩
  exact tick_wall_collision []
    { snake := [{ x := 0, y := 5 }, { x := 1, y := 5 }],
      food := { x := 3, y := 3 }, direction := Dir.left, gameOver := false, score := 0 }
    { x := 0, y := 5 } [{ x := 1, y := 5 }] _ true rfl rfl (Or.inl (by decide)) (by decide)

theorem run_timers_over (streams : List (List Position)) (s : GameState)
    (hgo : s.gameOver = true) :
    run (streams.map Event.timer) s = some s := by
  induction streams with
  | nil => rfl
  | cons st rest ih =>
    simp only [List.map_cons, run, stepEvent, tick_over st s hgo]
    exact ih

theorem run_preserves_over (evs : List Event) (s : GameState) (hgo : s.gameOver = true) :
    ∀ s1, run evs s = some s1 →
      s1.gameOver = true ∧ s1.snake = s.snake ∧ s1.food = s.food ∧
        s1.score = s.score := by
  induction evs generalizing s with
  | nil =>
    intro s1 h
    simp only [run, Option.some.injEq] at h
    subst h
    exact ⟨hgo, rfl, rfl, rfl⟩
  | cons e rest ih =>
    intro s1 h
    cases e with
    | timer st =>
      simp only [run, stepEvent, tick_over st s hgo] at h
      exact ih s hgo s1 h
    | key k =>
      simp only [run, stepEvent] at h
      have hgo' : (handleInput k s).gameOver = true := by
        rw [handleInput_eq]
        exact hgo
      obtain ⟨g, sn, fd, sc⟩ := ih (handleInput k s) hgo' s1 h
      rw [handleInput_eq] at sn fd sc
      exact ⟨g, sn, fd, sc⟩

/-- Claim C6: from a Phase = Over state, any number of further ticks is a
strict no-op, and along any mixed sequence of ticks and key events the
body, consumable and score keep their terminal values and the phase never
returns to Active. -/
theorem over_absorbing (s : GameState) (streams : List (List Position))
    (evs : List Event) (hgo : s.gameOver = true) :
    run (streams.map Event.timer) s = some s ∧
    ∀ s1, run evs s = some s1 →
      s1.gameOver = true ∧ s1.snake = s.snake ∧ s1.food = s.food ∧
        s1.score = s.score :=
  ⟨run_timers_over streams s hgo, run_preserves_over evs s hgo⟩

/-- Witness for C6 at a concrete terminal state: two further ticks change
nothing, and a tick followed by an UP key leaves body, food, score and
phase at their terminal values. -/
theorem over_absorbing_witness :
    run ([[], []].map Event.timer)
      { snake := [{ x := 24, y := 3 }, { x := 23, y := 3 }],
        food := { x := 1, y := 1 }, direction := Dir.right,
        gameOver := true, score := 20 } =
      some { snake := [{ x := 24, y := 3 }, { x := 23, y := 3 }],
             food := { x := 1, y := 1 }, direction := Dir.right,
             gameOver := true, score := 20 } ∧
    ({ snake := [{ x := 24, y := 3 }, { x := 23, y := 3 }],
       food := { x := 1, y := 1 }, direction := Dir.up,
       gameOver := true, score := 20 } : GameState).gameOver = true ∧
    ({ snake := [{ x := 24, y := 3 }, { x := 23, y := 3 }],
       food := { x := 1, y := 1 }, direction := Dir.up,
       gameOver := true, score := 20 } : GameState).snake =
      ({ snake := [{ x := 24, y := 3 }, { x := 23, y := 3 }],
         food := { x := 1, y := 1 }, direction := Dir.right,
         gameOver := true, score := 20 } : GameState).snake ∧
    ({ snake := [{ x := 24, y := 3 }, { x := 23, y := 3 }],
       food := { x := 1, y := 1 }, direction := Dir.up,
       gameOver := true, score := 20 } : GameState).food =
      ({ snake := [{ x := 24, y := 3 }, { x := 23, y := 3 }],
         food := { x := 1, y := 1 }, direction := Dir.right,
         gameOver := true, score := 20 } : GameState).food ∧
    ({ snake := [{ x := 24, y := 3 }, { x := 23, y := 3 }],
       food := { x := 1, y := 1 }, direction := Dir.up,
       gameOver := true, score := 20 } : GameState).score =
      ({ snake := [{ x := 24, y := 3 }, { x := 23, y := 3 }],
         food := { x := 1, y := 1 }, direction := Dir.right,
         gameOver := true, score := 20 } : GameState).score :=
  ⟨(over_absorbing _ [[], []] [Event.timer [], Event.key Dir.up] rfl).1,
   (over_absorbing
     { snake := [{ x := 24, y := 3 }, { x := 23, y := 3 }],
       food := { x := 1, y := 1 }, direction := Dir.right,
       gameOver := true, score := 20 } [[], []]
     [Event.timer [], Event.key Dir.up] rfl).2 _ (by decide)⟩

/-- Claim C8: at rest between select iterations, while the game is still
active the body never overlaps itself and always has at least one segment. -/
theorem reachable_body_distinct (s : GameState) (hr : Reachable s) :
    s.gameOver = false → s.snake.Nodup ∧ 1 ≤ s.snake.length := by
  induction hr with
  | init stream f hf =>
    intro _
    exact ⟨by simp [initialState, initBody], by simp [initialState, initBody]⟩
  | inputStep s k hs ih =>
    rw [handleInput_eq]
    intro hgo
    exact ih hgo
  | tickStep s s1 r stream hsR htick ih =>
    intro hgo1
    by_cases hgos : s.gameOver = true
    · rw [tick_over stream s hgos] at htick
      simp only [Option.some.injEq, Prod.mk.injEq] at htick
      obtain ⟨h1, _⟩ := htick
      rw [← h1] at hgo1
      rw [hgos] at hgo1
      cases hgo1
    · rw [tick, if_neg hgos] at htick
      cases hm : move stream s with
      | none => rw [hm] at htick; cases htick
      | some s2 =>
        rw [hm] at htick
        simp only [Option.some.injEq, Prod.mk.injEq] at htick
        obtain ⟨h1, _⟩ := htick
        rw [← h1] at hgo1 ⊢
        obtain ⟨hccs, hgo2, hchk⟩ := checkCollisions_active s2 hgo1
        rw [hccs]
        obtain ⟨hnd, _⟩ := ih (Bool.eq_false_iff.mpr hgos)
        obtain ⟨h0, t0, hs0, hcase⟩ := move_some stream s s2 hm
        rcases hcase with ⟨he, f, hpf, hrec⟩ | ⟨hne, hrec⟩
        · have hsn2 : s2.snake = nextHead s.direction h0 :: s.snake := by rw [hrec]
          obtain ⟨_, hov⟩ := hchk (nextHead s.direction h0) s.snake hsn2
          rw [overlaps_eq_false_iff] at hov
          rw [hsn2]
          exact ⟨List.nodup_cons.mpr ⟨hov, hnd⟩, by simp⟩
        · have hsn2 : s2.snake =
              nextHead s.direction h0 :: (h0 :: t0).dropLast := by
            rw [hrec, hs0]
            rfl
          obtain ⟨_, hov⟩ := hchk (nextHead s.direction h0) ((h0 :: t0).dropLast) hsn2
          rw [overlaps_eq_false_iff] at hov
          rw [hsn2]
          refine ⟨List.nodup_cons.mpr ⟨hov, ?_⟩, by simp⟩
          rw [hs0] at hnd
          exact List.Nodup.sublist (List.dropLast_sublist (h0 :: t0)) hnd

/-- Witness for C8 at the concrete reachable state produced by
initializeGame with first draw (0,0). -/
theorem reachable_body_distinct_witness :
    (initialState { x := 0, y := 0 }).snake.Nodup ∧
      1 ≤ (initialState { x := 0, y := 0 }).snake.length :=
  reachable_body_distinct (initialState { x := 0, y := 0 })
    (Reachable.init [{ x := 0, y := 0 }] { x := 0, y := 0 } (by decide)) rfl

/-- Claim C9: at rest between select iterations the consumable never lies
on the body, in every reachable state. -/
theorem reachable_food_off_body (s : GameState) (hr : Reachable s) :
    overlaps s.food s.snake = false := by
  induction hr with
  | init stream f hf =>
    simpa [initialState] using placeFood_not_overlap stream initBody f hf
  | inputStep s k hs ih =>
    rw [handleInput_eq]
    exact ih
  | tickStep s s1 r stream hsR htick ih =>
    by_cases hgos : s.gameOver = true
    · rw [tick_over stream s hgos] at htick
      simp only [Option.some.injEq, Prod.mk.injEq] at htick
      obtain ⟨h1, _⟩ := htick
      rw [← h1]
      exact ih
    · rw [tick, if_neg hgos] at htick
      cases hm : move stream s with
      | none => rw [hm] at htick; cases htick
      | some s2 =>
        rw [hm] at htick
        simp only [Option.some.injEq, Prod.mk.injEq] at htick
        obtain ⟨h1, _⟩ := htick
        obtain ⟨hsn, hfd, _, _⟩ := checkCollisions_fields s2
        rw [← h1, hsn, hfd]
        obtain ⟨h0, t0, hs0, hcase⟩ := move_some stream s s2 hm
        rcases hcase with ⟨he, f, hpf, hrec⟩ | ⟨hne, hrec⟩
        · rw [hrec]
          exact placeFood_not_overlap stream (nextHead s.direction h0 :: s.snake) f hpf
        · rw [hrec]
          show overlaps s.food ((nextHead s.direction h0 :: s.snake).dropLast) = false
          rw [hs0, dropLast_cons_cons]
          rw [overlaps_eq_false_iff] at ih ⊢
          intro hmem
          rcases List.mem_cons.mp hmem with hfh | hft
          · exact hne (by rw [← hfh])
          · exact ih (by
              rw [hs0]
              exact (List.dropLast_sublist (h0 :: t0)).subset hft)

/-- Witness for C9 at the concrete reachable state produced by
initializeGame with first draw (0,0). -/
theorem reachable_food_off_body_witness :
    overlaps (initialState { x := 0, y := 0 }).food
      (initialState { x := 0, y := 0 }).snake = false :=
  reachable_food_off_body (initialState { x := 0, y := 0 })
    (Reachable.init [{ x := 0, y := 0 }] { x := 0, y := 0 } (by decide))

theorem getLast_not_mem_dropLast (l : List Position) (hne : l ≠ [])
    (hnd : l.Nodup) : l.getLast hne ∉ l.dropLast := by
  intro hmem
  have hsplit : l.dropLast ++ [l.getLast hne] = l := List.dropLast_append_getLast hne
  rw [← hsplit] at hnd
  exact (List.nodup_append.mp hnd).2.2 hmem (List.mem_singleton_self _)

theorem checkCollisions_miss (s : GameState) (h0 : Position) (t0 : List Position)
    (hs : s.snake = h0 :: t0)
    (hcond : (decide (h0.x < 0) || decide (h0.x ≥ width) || decide (h0.y < 0) ||
        decide (h0.y ≥ height) || overlaps h0 t0) = false) :
    checkCollisions s = s := by
  simp only [checkCollisions, hs]
  rw [if_neg (by simp [hcond])]

/-- Claim C10: in an active, self-consistent state of two or more
segments, a move whose new head is in bounds, off the consumable and equal
to the current tail does not end the game: the tail cell is dropped from
the body before checkCollisions compares the head with the remaining
segments. -/
theorem tick_tail_chase_safe (stream : List Position) (s : GameState) (h0 : Position)
    (t0 : List Position) (hs : s.snake = h0 :: t0) (_hlen : t0 ≠ [])
    (hnd : s.snake.Nodup) (hgo : s.gameOver = false)
    (htail : nextHead s.direction h0 = (h0 :: t0).getLast (List.cons_ne_nil h0 t0))
    (hib : inBounds (nextHead s.direction h0) = true)
    (hnf : nextHead s.direction h0 ≠ s.food) :
    tick stream s =
      some ({ s with snake := (nextHead s.direction h0 :: s.snake).dropLast }, true) ∧
    ({ s with snake :=
        (nextHead s.direction h0 :: s.snake).dropLast } : GameState).gameOver = false := by
  have hgos : ¬s.gameOver = true := by rw [hgo]; exact Bool.false_ne_true
  have hm := move_noeat stream s h0 t0 hs hnf
  have hs2 : ({ s with snake := (nextHead s.direction h0 :: s.snake).dropLast } :
      GameState).snake = nextHead s.direction h0 :: (h0 :: t0).dropLast := by
    rw [hs]
    rfl
  obtain ⟨hx0, hxw, hy0, hyh⟩ := of_decide_eq_true hib
  have hov : overlaps (nextHead s.direction h0) ((h0 :: t0).dropLast) = false := by
    rw [overlaps_eq_false_iff, htail]
    rw [hs] at hnd
    exact getLast_not_mem_dropLast (h0 :: t0) (List.cons_ne_nil h0 t0) hnd
  have hcond : (decide ((nextHead s.direction h0).x < 0) ||
      decide ((nextHead s.direction h0).x ≥ width) ||
      decide ((nextHead s.direction h0).y < 0) ||
      decide ((nextHead s.direction h0).y ≥ height) ||
      overlaps (nextHead s.direction h0) ((h0 :: t0).dropLast)) = false := by
    rw [decide_eq_false (by omega), decide_eq_false (not_le.mpr hxw),
      decide_eq_false (by omega), decide_eq_false (not_le.mpr hyh), hov]
    rfl
  have hcc := checkCollisions_miss
    { s with snake := (nextHead s.direction h0 :: s.snake).dropLast }
    (nextHead s.direction h0) ((h0 :: t0).dropLast) hs2 hcond
  refine ⟨?_, hgo⟩
  rw [tick, if_neg hgos]
  simp only [hm]
  rw [hcc]

/-- Witness for C10: the two-segment body [(5,5),(4,5)] heading LEFT moves
onto its own just-vacated tail (4,5) and the game stays active. -/
theorem tick_tail_chase_safe_witness :
    tick [] { snake := [{ x := 5, y := 5 }, { x := 4, y := 5 }],
              food := { x := 0, y := 0 }, direction := Dir.left,
              gameOver := false, score := 0 } =
      some ({ snake := [{ x := 4, y := 5 }, { x := 5, y := 5 }],
              food := { x := 0, y := 0 }, direction := Dir.left,
              gameOver := false, score := 0 }, true) ∧
    ({ snake := [{ x := 4, y := 5 }, { x := 5, y := 5 }],
       food := { x := 0, y := 0 }, direction := Dir.left,
       gameOver := false, score := 0 } : GameState).gameOver = false := by
  have h := tick_tail_chase_safe []
    { snake := [{ x := 5, y := 5 }, { x := 4, y := 5 }],
      food := { x := 0, y := 0 }, direction := Dir.left,
      gameOver := false, score := 0 }
    { x := 5, y := 5 } [{ x := 4, y := 5 }]
    rfl (by decide) (by decide) rfl (by decide) (by decide) (by decide)
  exact ⟨Eq.trans h.1 (by decide), rfl⟩

example : placeFood [⟨10, 10⟩, ⟨3, 4⟩] initBody = some ⟨3, 4⟩ := by decide

example :
    move [] { snake := [⟨10, 10⟩], food := ⟨0, 0⟩, direction := Dir.right,
              gameOver := false, score := 0 } =
      some { snake := [⟨11, 10⟩], food := ⟨0, 0⟩, direction := Dir.right,
             gameOver := false, score := 0 } := by decide

end SnakeGame
